import Mathlib

/-!
Verification of the FakeAPI dispatcher: a shallow embedding of the
route-matching, authentication and response-emission logic of
`src/app/api/fake/[...path]/route.ts` together with the helpers in
`src/lib/tokenUtils.ts` and `src/lib/urlUtils.ts`, and proofs of the
specified properties.
-/

namespace FakeAPI

/-! ### Data model

Mirrors the TypeScript interfaces (`ApiProject`, `Endpoint`) used by the
dispatcher.  JavaScript distinguishes `null` from `undefined` for the
endpoint-level `requiresAuth` override (`requiresAuth?: boolean | null`),
so that field is embedded as a four-valued type.  Optional string fields
(`string | undefined`) are embedded as `Option String`. -/

/-- HTTP methods handled by the dispatcher (`GET`/`POST`/`PUT`/`PATCH`/`DELETE`). -/
inductive Method
  | GET | POST | PUT | PATCH | DELETE
deriving DecidableEq, Repr

/-- String form of a method, as compared against `endpoint.method` and echoed
in the 404 body. -/
def Method.name : Method → String
  | .GET => "GET"
  | .POST => "POST"
  | .PUT => "PUT"
  | .PATCH => "PATCH"
  | .DELETE => "DELETE"

/-- Value of the JavaScript field `requiresAuth?: boolean | null`:
`true`, `false`, the literal `null`, or absent (`undefined`). -/
inductive ReqAuth
  | rtrue | rfalse | rnull | rundef
deriving DecidableEq, Repr

/-- Embeds a Lean boolean as a `ReqAuth` value. -/
def ReqAuth.ofBool : Bool → ReqAuth
  | true => .rtrue
  | false => .rfalse

/-- Project-wide authentication policy
(`{enabled, token?, headerName?, tokenPfx?}`); `tokenPfx` embeds the
source field holding the token prefix string. -/
structure Authentication where
  enabled : Bool
  token : Option String
  headerName : Option String
  tokenPfx : Option String
deriving DecidableEq, Repr

/-- One endpoint definition inside a project. -/
structure Endpoint where
  path : String
  method : Method
  responseBody : String
  statusCode : Nat
  requiresAuth : ReqAuth
deriving DecidableEq, Repr

/-- One API project: a name, a base URL, an optional authentication policy
and an ordered list of endpoints. -/
structure Project where
  name : String
  baseUrl : String
  authentication : Option Authentication
  endpoints : List Endpoint
deriving DecidableEq, Repr

/-! ### Slug generation (`src/lib/urlUtils.ts`, `generateProjectSlug`)

The source lowercases the project name and replaces every character
outside `[a-z0-9]` with `-`, one character at a time. -/

/-- Models JavaScript `toLowerCase` on a single character: ASCII uppercase
letters are shifted down by 32, everything else is unchanged. -/
def asciiLower (c : Char) : Char :=
  if 65 ≤ c.toNat && c.toNat ≤ 90 then Char.ofNat (c.toNat + 32) else c

/-- Whether a character code is in the class `[a-z0-9]`. -/
def isLowerAlnum (n : Nat) : Bool :=
  (97 ≤ n && n ≤ 122) || (48 ≤ n && n ≤ 57)

/-- Per-character step of `generateProjectSlug`: lowercase, then replace
anything outside `[a-z0-9]` with a hyphen. -/
def slugChar (c : Char) : Char :=
  if isLowerAlnum (asciiLower c).toNat then asciiLower c else '-'

/-- `generateProjectSlug(projectName)` from `src/lib/urlUtils.ts`:
`projectName.toLowerCase().replace(/[^a-z0-9]/g, '-')`. -/
def generateProjectSlug (projectName : String) : String :=
  String.mk (projectName.data.map slugChar)

/-! ### Route matching (`route.ts`, `matchEndpoint` and the scan loop) -/

/-- The exact path the dispatcher expects for an endpoint:
`"/" + slug + baseUrl + endpoint.path`. -/
def expectedPath (projectName baseUrl endpointPath : String) : String :=
  "/" ++ generateProjectSlug projectName ++ baseUrl ++ endpointPath

/-- `matchEndpoint` from `route.ts`: exact string equality of the request
path against the expected path. -/
def matchEndpoint (requestPath projectName baseUrl endpointPath : String) : Bool :=
  decide (requestPath = expectedPath projectName baseUrl endpointPath)

/-- The combined per-endpoint test of the scan loop in `handleRequest`:
`matchEndpoint(fullPath, project.name, project.baseUrl, endpoint.path)
&& endpoint.method === method`. -/
def endpointMatches (fullPath : String) (m : Method) (p : Project) (e : Endpoint) : Bool :=
  matchEndpoint fullPath p.name p.baseUrl e.path && decide (e.method = m)

/-- Inner loop of `handleRequest`: the first endpoint of `p` matching the
request, in registration order. -/
def findInProject (fullPath : String) (m : Method) (p : Project) : Option Endpoint :=
  p.endpoints.find? (endpointMatches fullPath m p)

/-- Outer loop of `handleRequest`: scan projects in registration order and
return the first matching (project, endpoint) pair. -/
def resolve (fullPath : String) (m : Method) : List Project → Option (Project × Endpoint)
  | [] => none
  | p :: ps =>
    match findInProject fullPath m p with
    | some e => some (p, e)
    | none => resolve fullPath m ps

/-! ### Token extraction (`src/lib/tokenUtils.ts`, `extractTokenFromHeader`) -/

/-- Models JavaScript `s.split(c)` for a one-character separator: splits at
every occurrence of the separator, keeping empty pieces. -/
def splitChar (c : Char) : List Char → List (List Char)
  | [] => [[]]
  | x :: xs =>
    match splitChar c xs with
    | [] => [[]]
    | h :: t => if x = c then [] :: h :: t else (x :: h) :: t

/-- `extractTokenFromHeader(authHeader, pfx)` from `src/lib/tokenUtils.ts`:
return `null` for an empty header, split on the space character, and
return the second part when there are exactly two parts and the first
equals the prefix. -/
def extractTokenFromHeader (authHeader pfx : String) : Option String :=
  if authHeader = "" then none
  else
    match splitChar ' ' authHeader.data with
    | [p, v] => if p = pfx.data then some (String.mk v) else none
    | _ => none

/-! ### Authentication gate (`route.ts`, `handleRequest` lines 48-64) -/

/-- Models the JavaScript idiom `x || d` on an optional string: the default
is taken when the value is absent or the empty string. -/
def jsOrStr (x : Option String) (d : String) : String :=
  match x with
  | some s => if s = "" then d else s
  | none => d

/-- `project.authentication?.enabled || false`. -/
def projectAuthEnabled (p : Project) : Bool :=
  match p.authentication with
  | some a => a.enabled
  | none => false

/-- `endpoint.requiresAuth !== null ? endpoint.requiresAuth :
projectAuthEnabled`, then coerced to a boolean by the `if`: `undefined`
is not `null`, so it is kept and then treated as falsy. -/
def effectiveAuth (e : Endpoint) (p : Project) : Bool :=
  match e.requiresAuth with
  | .rtrue => true
  | .rfalse => false
  | .rundef => false
  | .rnull => projectAuthEnabled p

/-- `project.authentication?.headerName || 'Authorization'`. -/
def headerNameEff (p : Project) : String :=
  jsOrStr (p.authentication.bind Authentication.headerName) "Authorization"

/-- `project.authentication?.tokenPrefix || 'Bearer'` (the prefix field). -/
def tokenPfxEff (p : Project) : String :=
  jsOrStr (p.authentication.bind Authentication.tokenPfx) "Bearer"

/-- `project.authentication?.token` (no default applied). -/
def authTokenOf (p : Project) : Option String :=
  p.authentication.bind Authentication.token

/-- Outcome of the authentication check; `Denied` carries the
`requiredHeader` and `tokenFormat` strings put into the 401 body. -/
inductive AuthResult
  | Allowed
  | Denied (requiredHeader tokenFormat : String)
deriving DecidableEq, Repr

/-- The authentication block of `handleRequest`: when the effective
requirement holds, read the configured header (missing header becomes
`''`), extract the token, and deny unless it is truthy and strictly equal
to `project.authentication?.token`.  Request headers are modelled as a
lookup function already honouring HTTP case-insensitivity. -/
def authorize (p : Project) (e : Endpoint) (getHeader : String → Option String) : AuthResult :=
  if effectiveAuth e p then
    match extractTokenFromHeader ((getHeader (headerNameEff p)).getD "") (tokenPfxEff p) with
    | none => .Denied (headerNameEff p) (tokenPfxEff p ++ " <token>")
    | some t =>
      if t = "" then .Denied (headerNameEff p) (tokenPfxEff p ++ " <token>")
      else if authTokenOf p = some t then .Allowed
      else .Denied (headerNameEff p) (tokenPfxEff p ++ " <token>")
  else .Allowed

/-! ### Responses (`route.ts`, CORS helper and response construction) -/

/-- A JSON value, as produced by the platform JSON parser and emitted in
JSON response bodies. -/
inductive JsonVal
  | jnull
  | jbool (b : Bool)
  | jnum (n : Int)
  | jstr (s : String)
  | jarr (xs : List JsonVal)
  | jobj (fields : List (String × JsonVal))

/-- Body of an HTTP response: empty (preflight), raw text, or JSON. -/
inductive ResponseBody
  | empty
  | text (s : String)
  | json (j : JsonVal)

/-- An HTTP response: status, body, and response headers in order. -/
structure HttpResponse where
  status : Nat
  body : ResponseBody
  headers : List (String × String)

/-- The four fixed CORS headers set by `addCorsHeaders`. -/
def corsHeaders : List (String × String) :=
  [("Access-Control-Allow-Origin", "*"),
   ("Access-Control-Allow-Methods", "GET, POST, PUT, PATCH, DELETE, OPTIONS"),
   ("Access-Control-Allow-Headers", "Content-Type, Authorization, X-Requested-With, Accept, Origin"),
   ("Access-Control-Max-Age", "86400")]

/-- `addCorsHeaders(response)`: append the four CORS headers (none of the
constructed responses carries these keys beforehand, so setting them is
appending). -/
def addCorsHeaders (r : HttpResponse) : HttpResponse :=
  { r with headers := r.headers ++ corsHeaders }

/-- `NextResponse.json(body, {status})`: a JSON body with
`Content-Type: application/json`. -/
def jsonResponse (status : Nat) (j : JsonVal) : HttpResponse :=
  { status := status, body := .json j, headers := [("Content-Type", "application/json")] }

/-- The 401 body `{error, message, requiredHeader, tokenFormat}`. -/
def unauthorizedResponse (requiredHeader tokenFormat : String) : HttpResponse :=
  addCorsHeaders (jsonResponse 401 (.jobj
    [("error", .jstr "Unauthorized"),
     ("message", .jstr "Valid authentication token required"),
     ("requiredHeader", .jstr requiredHeader),
     ("tokenFormat", .jstr tokenFormat)]))

/-- The 404 body `{error: 'Endpoint not found', path, method}`. -/
def notFoundResponse (fullPath : String) (m : Method) : HttpResponse :=
  addCorsHeaders (jsonResponse 404 (.jobj
    [("error", .jstr "Endpoint not found"),
     ("path", .jstr fullPath),
     ("method", .jstr m.name)]))

/-- The catch-all 500 response of `handleRequest`. -/
def internalErrorResponse : HttpResponse :=
  addCorsHeaders (jsonResponse 500 (.jobj [("error", .jstr "Internal server error")]))

/-- The 404 emitted when the URL does not contain `/api/fake/`. -/
def invalidPathResponse : HttpResponse :=
  addCorsHeaders (jsonResponse 404 (.jobj [("error", .jstr "Invalid API path")]))

/-- The `OPTIONS` handler: empty 200 with only the CORS headers. -/
def optionsResponse : HttpResponse :=
  addCorsHeaders { status := 200, body := .empty, headers := [] }

/-- The success path of `handleRequest`: `JSON.parse(endpoint.responseBody)`
in a `try`; on success a JSON response at the endpoint status, on failure
the raw string as `text/plain` at the same status.  `parse` abstracts the
platform JSON parser (`JSON.parse`), returning `none` exactly when it
throws. -/
def emitBody (parse : String → Option JsonVal) (e : Endpoint) : HttpResponse :=
  match parse e.responseBody with
  | some j => addCorsHeaders (jsonResponse e.statusCode j)
  | none =>
    addCorsHeaders
      { status := e.statusCode, body := .text e.responseBody,
        headers := [("Content-Type", "text/plain")] }

/-- `handleRequest` after the `/api/fake/` path extraction: resolve the
route, run the authentication gate, and emit the configured response, the
401 or the 404. -/
def handleRequest (parse : String → Option JsonVal) (projects : List Project)
    (fullPath : String) (m : Method) (getHeader : String → Option String) : HttpResponse :=
  match resolve fullPath m projects with
  | some (p, e) =>
    match authorize p e getHeader with
    | .Allowed => emitBody parse e
    | .Denied requiredHeader tokenFormat => unauthorizedResponse requiredHeader tokenFormat
  | none => notFoundResponse fullPath m

/-! ### URL generation (`src/lib/urlUtils.ts`, `generateEndpointUrl`) -/

/-- Models JavaScript `s.startsWith('/')`: whether the first character of
the string is a slash. -/
def startsWithSlash (s : String) : Bool :=
  match s.data with
  | [] => false
  | c :: _ => decide (c = '/')

/-- The leading-slash normalisation of `generateEndpointUrl`:
`s.startsWith('/') ? s : '/' + s`. -/
def cleanSlash (s : String) : String :=
  if startsWithSlash s then s else "/" ++ s

/-- `generateEndpointUrl(projectName, baseUrl, endpointPath)`: the origin
(environment dependent, passed here as `origin`) followed by
`/api/fake/{slug}{cleanBaseUrl}{cleanEndpointPath}`. -/
def generateEndpointUrl (origin projectName baseUrl endpointPath : String) : String :=
  origin ++ "/api/fake/" ++ generateProjectSlug projectName
    ++ cleanSlash baseUrl ++ cleanSlash endpointPath

/-- The path portion of a generated URL after the `/api/fake` mount point. -/
def genPathPortion (projectName baseUrl endpointPath : String) : String :=
  "/" ++ generateProjectSlug projectName ++ cleanSlash baseUrl ++ cleanSlash endpointPath

/-! ## Helper lemmas -/

theorem toNat_ofNat_valid (n : Nat) (h : n.isValidChar) : (Char.ofNat n).toNat = n := by
  rw [Char.ofNat, dif_pos h]; rfl

theorem asciiLower_toNat (c : Char) :
    (asciiLower c).toNat = if 65 ≤ c.toNat ∧ c.toNat ≤ 90 then c.toNat + 32 else c.toNat := by
  unfold asciiLower
  by_cases h : 65 ≤ c.toNat ∧ c.toNat ≤ 90
  · have hv : (c.toNat + 32).isValidChar := Or.inl (by omega)
    simp [h, toNat_ofNat_valid _ hv]
  · simp [h]

theorem asciiLower_stable (d : Char) (h : ¬(65 ≤ d.toNat ∧ d.toNat ≤ 90)) :
    asciiLower d = d := by
  unfold asciiLower
  simp [h]

theorem slugChar_of_lowerAlnum (d : Char) (h : isLowerAlnum d.toNat = true) :
    slugChar d = d := by
  simp only [isLowerAlnum, Bool.or_eq_true, Bool.and_eq_true, decide_eq_true_eq] at h
  have hs : asciiLower d = d := asciiLower_stable d (by omega)
  unfold slugChar
  rw [hs]
  simp only [isLowerAlnum, Bool.or_eq_true, Bool.and_eq_true, decide_eq_true_eq]
  rw [if_pos (by omega)]

theorem slugChar_idem (c : Char) : slugChar (slugChar c) = slugChar c := by
  unfold slugChar
  by_cases h : isLowerAlnum (asciiLower c).toNat = true
  · rw [if_pos h]
    exact slugChar_of_lowerAlnum _ h
  · rw [if_neg h]
    decide

theorem slugChar_class (c : Char) :
    slugChar c = '-' ∨ isLowerAlnum (slugChar c).toNat = true := by
  unfold slugChar
  by_cases h : isLowerAlnum (asciiLower c).toNat = true
  · rw [if_pos h]; exact Or.inr h
  · rw [if_neg h]; exact Or.inl rfl

theorem le_char_iff_toNat (a c : Char) : a ≤ c ↔ a.toNat ≤ c.toNat := by
  rw [Char.le_def, UInt32.le_def, BitVec.le_def]
  simp only [Char.toNat, UInt32.toNat]

theorem endpointMatches_iff (fullPath : String) (m : Method) (p : Project) (e : Endpoint) :
    endpointMatches fullPath m p e = true ↔
      fullPath = expectedPath p.name p.baseUrl e.path ∧ e.method = m := by
  simp [endpointMatches, matchEndpoint]

theorem find?_eq_head_filter {α : Type} (p : α → Bool) (l : List α) :
    l.find? p = (l.filter p).head? := by
  induction l with
  | nil => rfl
  | cons x xs ih =>
    cases h : p x
    · rw [List.find?_cons_of_neg _ (by simp [h]), List.filter_cons_of_neg (by simp [h])]
      exact ih
    · rw [List.find?_cons_of_pos _ h, List.filter_cons_of_pos h]
      rfl

theorem resolve_eq_first (fullPath : String) (m : Method) (ps : List Project) :
    resolve fullPath m ps =
      (ps.flatMap (fun p =>
        (p.endpoints.filter (endpointMatches fullPath m p)).map (fun e => (p, e)))).head? := by
  induction ps with
  | nil => rfl
  | cons p ps ih =>
    show (match findInProject fullPath m p with
          | some e => some (p, e)
          | none => resolve fullPath m ps) = _
    rw [List.flatMap_cons]
    unfold findInProject
    rw [find?_eq_head_filter]
    cases hf : p.endpoints.filter (endpointMatches fullPath m p) with
    | nil => simpa using ih
    | cons e es => simp

theorem resolve_isSome_iff (fullPath : String) (m : Method) (ps : List Project) :
    (resolve fullPath m ps).isSome ↔
      ∃ p ∈ ps, ∃ e ∈ p.endpoints,
        fullPath = expectedPath p.name p.baseUrl e.path ∧ e.method = m := by
  induction ps with
  | nil => simp [resolve]
  | cons p ps ih =>
    show (match findInProject fullPath m p with
          | some e => some (p, e)
          | none => resolve fullPath m ps).isSome = true ↔ _
    cases hf : findInProject fullPath m p with
    | some e =>
      simp only [Option.isSome_some, true_iff]
      refine ⟨p, List.mem_cons_self p ps, e, List.mem_of_find?_eq_some hf, ?_⟩
      exact (endpointMatches_iff fullPath m p e).mp (List.find?_some hf)
    | none =>
      have hnone : ∀ e ∈ p.endpoints, ¬(endpointMatches fullPath m p e = true) :=
        fun e he => List.find?_eq_none.mp hf e he
      simp only [ih, List.mem_cons]
      constructor
      · rintro ⟨q, hq, e, he, hc⟩
        exact ⟨q, Or.inr hq, e, he, hc⟩
      · rintro ⟨q, hq | hq, e, he, hc⟩
        · subst hq
          exact absurd ((endpointMatches_iff fullPath m q e).mpr hc) (hnone e he)
        · exact ⟨q, hq, e, he, hc⟩

theorem resolve_eq_none_of_no_match (fullPath : String) (m : Method) (ps : List Project)
    (h : ∀ p ∈ ps, ∀ e ∈ p.endpoints,
      ¬(fullPath = expectedPath p.name p.baseUrl e.path ∧ e.method = m)) :
    resolve fullPath m ps = none := by
  rcases ho : resolve fullPath m ps with _ | pe
  · rfl
  · exfalso
    have : (resolve fullPath m ps).isSome := by rw [ho]; rfl
    rcases (resolve_isSome_iff fullPath m ps).mp this with ⟨p, hp, e, he, hc⟩
    exact h p hp e he hc

theorem cors_sub_addCors (r : HttpResponse) : corsHeaders ⊆ (addCorsHeaders r).headers :=
  fun _ hx => List.mem_append_right _ hx

theorem handleRequest_resolve_some (parse : String → Option JsonVal) (ps : List Project)
    (fullPath : String) (m : Method) (g : String → Option String)
    (p : Project) (e : Endpoint) (hres : resolve fullPath m ps = some (p, e)) :
    handleRequest parse ps fullPath m g =
      match authorize p e g with
      | .Allowed => emitBody parse e
      | .Denied requiredHeader tokenFormat =>
          unauthorizedResponse requiredHeader tokenFormat := by
  unfold handleRequest
  rw [hres]

theorem handleRequest_resolve_none (parse : String → Option JsonVal) (ps : List Project)
    (fullPath : String) (m : Method) (g : String → Option String)
    (hres : resolve fullPath m ps = none) :
    handleRequest parse ps fullPath m g = notFoundResponse fullPath m := by
  unfold handleRequest
  rw [hres]

theorem splitChar_ne_nil (c : Char) (l : List Char) : splitChar c l ≠ [] := by
  cases l with
  | nil => simp [splitChar]
  | cons x xs =>
    unfold splitChar
    cases h : splitChar c xs with
    | nil => simp
    | cons hd tl => by_cases hx : x = c <;> simp [hx]

theorem splitChar_singleton (c : Char) (l : List Char) : ∀ b,
    splitChar c l = [b] ↔ l = b ∧ c ∉ b := by
  induction l with
  | nil =>
    intro b
    simp [splitChar, eq_comm]
    rintro rfl
    simp
  | cons x xs ih =>
    intro b
    unfold splitChar
    cases h : splitChar c xs with
    | nil => exact absurd h (splitChar_ne_nil c xs)
    | cons hd tl =>
      by_cases hx : x = c
      · subst hx
        simp only [if_pos rfl]
        constructor
        · intro he; exact absurd he (by simp)
        · rintro ⟨rfl, hmem⟩
          exact absurd (List.mem_cons_self x xs) hmem
      · simp only [if_neg hx]
        constructor
        · intro he
          injection he with h1 h2
          subst h2
          obtain ⟨hxs, hnm⟩ := (ih hd).mp h
          subst hxs
          refine ⟨h1, ?_⟩
          rw [← h1]
          intro hmem
          rcases List.mem_cons.mp hmem with h1 | h2
          · exact hx h1.symm
          · exact hnm h2
        · rintro ⟨rfl, hmem⟩
          have hcx : c ∉ xs := fun hm => hmem (List.mem_cons_of_mem _ hm)
          have hs : splitChar c xs = [xs] := (ih xs).mpr ⟨rfl, hcx⟩
          rw [h] at hs
          injection hs with h1 h2
          subst h1; subst h2
          rfl

theorem splitChar_pair (c : Char) (l : List Char) : ∀ a b,
    splitChar c l = [a, b] ↔ l = a ++ c :: b ∧ c ∉ a ∧ c ∉ b := by
  induction l with
  | nil =>
    intro a b
    constructor
    · intro he; exact absurd he (by simp [splitChar])
    · rintro ⟨he, -, -⟩
      exact absurd he.symm (by simp)
  | cons x xs ih =>
    intro a b
    unfold splitChar
    cases h : splitChar c xs with
    | nil => exact absurd h (splitChar_ne_nil c xs)
    | cons hd tl =>
      by_cases hx : x = c
      · subst hx
        simp only [if_pos rfl]
        constructor
        · intro he
          injection he with h1 h2
          injection h2 with h2 h3
          subst h3
          obtain ⟨hxs, hnb⟩ := (splitChar_singleton x xs hd).mp h
          refine ⟨?_, ?_, h2 ▸ hnb⟩
          · rw [← h1, ← h2, ← hxs]; rfl
          · rw [← h1]; simp
        · rintro ⟨he, hna, hnb⟩
          have ha : a = [] := by
            cases a with
            | nil => rfl
            | cons y ys =>
              exfalso
              rw [List.cons_append] at he
              injection he with h1 h2
              exact hna (by rw [h1]; exact List.mem_cons_self y ys)
          subst ha
          simp only [List.nil_append] at he
          injection he with h1 h2
          have hs : splitChar x xs = [b] := (splitChar_singleton x xs b).mpr ⟨h2, hnb⟩
          rw [h] at hs
          injection hs with h3 h4
          subst h3; subst h4
          rfl
      · simp only [if_neg hx]
        constructor
        · intro he
          injection he with h1 h2
          subst h2
          obtain ⟨hxs, hna2, hnb⟩ := (ih hd b).mp h
          refine ⟨?_, ?_, hnb⟩
          · rw [← h1, hxs]; rfl
          · rw [← h1]
            intro hmem
            rcases List.mem_cons.mp hmem with hc | hc
            · exact hx hc.symm
            · exact hna2 hc
        · rintro ⟨he, hna, hnb⟩
          cases a with
          | nil =>
            exfalso
            simp only [List.nil_append] at he
            injection he with h1 h2
            exact hx h1
          | cons y ys =>
            rw [List.cons_append] at he
            injection he with hy hxs
            have hnys : c ∉ ys := fun hm => hna (List.mem_cons_of_mem _ hm)
            have hs : splitChar c xs = [ys, b] := (ih ys b).mpr ⟨hxs, hnys, hnb⟩
            rw [h] at hs
            injection hs with h1 h2
            subst h1; subst h2
            rw [hy]
theorem extractToken_eq_some (h pfx v : String) :
    extractTokenFromHeader h pfx = some v ↔
      h = pfx ++ " " ++ v ∧ ' ' ∉ pfx.data ∧ ' ' ∉ v.data := by
  by_cases h0 : h = ""
  · subst h0
    constructor
    · intro hc; exact absurd hc (by simp [extractTokenFromHeader])
    · rintro ⟨he, -, -⟩
      have hd : ("" : String).data = (pfx ++ " " ++ v).data := by rw [← he]
      rw [String.data_append, String.data_append] at hd
      simp at hd
  · constructor
    · intro hsome
      unfold extractTokenFromHeader at hsome
      rw [if_neg h0] at hsome
      split at hsome
      · rename_i p v2 heq
        split at hsome
        · rename_i hp
          have hv : v = String.mk v2 := (Option.some.injEq _ _ ▸ hsome).symm
          obtain ⟨hdata, hnp, hnv⟩ := (splitChar_pair ' ' h.data p v2).mp heq
          subst hp
          refine ⟨?_, hnp, ?_⟩
          · apply String.ext
            rw [String.data_append, String.data_append]
            rw [hdata, hv]
            simp
          · rw [hv]; exact hnv
        · exact absurd hsome (by simp)
      · exact absurd hsome (by simp)
    · rintro ⟨he, hnp, hnv⟩
      have hdata : h.data = pfx.data ++ ' ' :: v.data := by
        rw [he, String.data_append, String.data_append]
        simp
      have hsp : splitChar ' ' h.data = [pfx.data, v.data] :=
        (splitChar_pair ' ' h.data pfx.data v.data).mpr ⟨hdata, hnp, hnv⟩
      unfold extractTokenFromHeader
      rw [if_neg h0, hsp]
      simp

/-! ## Claim theorems -/

/-- Claim C1: for every request path, method and project list, the route
resolver returns a pair exactly when some endpoint satisfies
`requestPath = "/" + slug(project.name) + project.baseUrl + endpoint.path`
(exact string equality) with the matching method, and the value returned
is the first match in project-registration then endpoint-registration
order (the head of the flattened, order-preserving list of matches);
when no endpoint matches, it reports not found (`none`). -/
theorem resolve_first_match (fullPath : String) (m : Method) (ps : List Project) :
    resolve fullPath m ps =
      (ps.flatMap (fun p =>
        (p.endpoints.filter (endpointMatches fullPath m p)).map (fun e => (p, e)))).head? ∧
    ((resolve fullPath m ps).isSome ↔
      ∃ p ∈ ps, ∃ e ∈ p.endpoints,
        fullPath = expectedPath p.name p.baseUrl e.path ∧ e.method = m) :=
  ⟨resolve_eq_first fullPath m ps, resolve_isSome_iff fullPath m ps⟩

/-- Concrete instance of claim C1: a one-project registry where the second
endpoint is the unique match. -/
theorem resolve_first_match_witness :
    resolve "/demo/api/b" Method.GET
      [{ name := "demo", baseUrl := "/api", authentication := none,
         endpoints :=
           [{ path := "/a", method := .GET, responseBody := "1", statusCode := 200,
              requiresAuth := .rnull },
            { path := "/b", method := .GET, responseBody := "2", statusCode := 200,
              requiresAuth := .rnull }] }] =
      some ({ name := "demo", baseUrl := "/api", authentication := none,
              endpoints :=
                [{ path := "/a", method := .GET, responseBody := "1", statusCode := 200,
                   requiresAuth := .rnull },
                 { path := "/b", method := .GET, responseBody := "2", statusCode := 200,
                   requiresAuth := .rnull }] },
            { path := "/b", method := .GET, responseBody := "2", statusCode := 200,
              requiresAuth := .rnull }) := by
  rw [(resolve_first_match "/demo/api/b" Method.GET _).1]
  decide

/-- Claim C8: the slug transformation is total and idempotent: applying it
twice yields the same string as applying it once, and every character of
every output matches the class `[a-z0-9-]`. -/
theorem slug_idempotent_total (s : String) :
    generateProjectSlug (generateProjectSlug s) = generateProjectSlug s ∧
    ∀ c ∈ (generateProjectSlug s).data,
      c = '-' ∨ ('a' ≤ c ∧ c ≤ 'z') ∨ ('0' ≤ c ∧ c ≤ '9') := by
  constructor
  · show String.mk (List.map slugChar (List.map slugChar s.data)) = _
    rw [List.map_map]
    have hfun : slugChar ∘ slugChar = slugChar := funext slugChar_idem
    rw [hfun]
    rfl
  · intro c hc
    have hc2 : c ∈ List.map slugChar s.data := hc
    rcases List.mem_map.mp hc2 with ⟨a, _, rfl⟩
    rcases slugChar_class a with h | h
    · exact Or.inl h
    · right
      simp only [isLowerAlnum, Bool.or_eq_true, Bool.and_eq_true, decide_eq_true_eq] at h
      rcases h with ⟨h1, h2⟩ | ⟨h1, h2⟩
      · exact Or.inl ⟨(le_char_iff_toNat 'a' _).mpr h1, (le_char_iff_toNat _ 'z').mpr h2⟩
      · exact Or.inr ⟨(le_char_iff_toNat '0' _).mpr h1, (le_char_iff_toNat _ '9').mpr h2⟩

/-- Concrete instance of claim C8 at the name "My Blog API": slugging a
second time changes nothing, and the character 'm' of the output
"my-blog-api" is in the allowed class. -/
theorem slug_idempotent_total_witness :
    generateProjectSlug (generateProjectSlug "My Blog API") = generateProjectSlug "My Blog API" ∧
    ('m' = '-' ∨ ('a' ≤ 'm' ∧ 'm' ≤ 'z') ∨ ('0' ≤ 'm' ∧ 'm' ≤ '9')) :=
  ⟨(slug_idempotent_total "My Blog API").1,
   (slug_idempotent_total "My Blog API").2 'm' (by decide)⟩

/-- Claim C2: the effective authentication requirement is the endpoint's
`requiresAuth` when that is a boolean, and the project's
`authentication.enabled` when it is the literal `null`; an absent or
disabled authentication object means disabled; and a false effective
requirement makes the request allowed whatever headers are supplied. -/
theorem effective_auth_rule (p : Project) (e : Endpoint) (g : String → Option String) :
    (∀ b : Bool, e.requiresAuth = ReqAuth.ofBool b → effectiveAuth e p = b) ∧
    (e.requiresAuth = ReqAuth.rnull → effectiveAuth e p = projectAuthEnabled p) ∧
    (p.authentication = none → projectAuthEnabled p = false) ∧
    (∀ a, p.authentication = some a → a.enabled = false → projectAuthEnabled p = false) ∧
    (effectiveAuth e p = false → authorize p e g = AuthResult.Allowed) := by
  refine ⟨?_, ?_, ?_, ?_, ?_⟩
  · rintro b hb
    cases b <;> simp [effectiveAuth, hb, ReqAuth.ofBool]
  · intro hb
    simp [effectiveAuth, hb]
  · intro ha
    simp [projectAuthEnabled, ha]
  · intro a ha hen
    simp [projectAuthEnabled, ha, hen]
  · intro hf
    simp [authorize, hf]

/-- Concrete instance of claim C2: an endpoint with `requiresAuth = null`
in a project without an authentication object inherits disabled
authentication and is allowed with no headers at all. -/
theorem effective_auth_rule_witness :
    effectiveAuth
        { path := "/a", method := .GET, responseBody := "1", statusCode := 200,
          requiresAuth := .rnull }
        { name := "demo", baseUrl := "/api", authentication := none, endpoints := [] } = false ∧
    authorize
        { name := "demo", baseUrl := "/api", authentication := none, endpoints := [] }
        { path := "/a", method := .GET, responseBody := "1", statusCode := 200,
          requiresAuth := .rnull }
        (fun _ => none) = AuthResult.Allowed := by
  refine ⟨?_, ?_⟩
  · rw [(effective_auth_rule
      { name := "demo", baseUrl := "/api", authentication := none, endpoints := [] }
      { path := "/a", method := .GET, responseBody := "1", statusCode := 200,
        requiresAuth := .rnull } (fun _ => none)).2.1 rfl]
    exact (effective_auth_rule
      { name := "demo", baseUrl := "/api", authentication := none, endpoints := [] }
      { path := "/a", method := .GET, responseBody := "1", statusCode := 200,
        requiresAuth := .rnull } (fun _ => none)).2.2.1 rfl
  · exact (effective_auth_rule
      { name := "demo", baseUrl := "/api", authentication := none, endpoints := [] }
      { path := "/a", method := .GET, responseBody := "1", statusCode := 200,
        requiresAuth := .rnull } (fun _ => none)).2.2.2.2 rfl

/-- Claim C9: an absent (`undefined`) `requiresAuth` is not the literal
`null`, so it does not inherit the project policy: the strict `!== null`
test keeps the undefined value, which is then falsy, and the request is
allowed without any token even when the project authentication is
enabled. -/
theorem undefined_requiresAuth_allows (p : Project) (e : Endpoint)
    (g : String → Option String) (h : e.requiresAuth = ReqAuth.rundef) :
    effectiveAuth e p = false ∧ authorize p e g = AuthResult.Allowed := by
  have h1 : effectiveAuth e p = false := by simp [effectiveAuth, h]
  exact ⟨h1, by simp [authorize, h1]⟩

/-- Concrete instance of claim C9: a project with enabled authentication
and a stored token still allows a token-free request to an endpoint whose
`requiresAuth` is absent. -/
theorem undefined_requiresAuth_allows_witness :
    projectAuthEnabled
      { name := "demo", baseUrl := "/api",
        authentication := some { enabled := true, token := some "secret-1",
                                 headerName := some "Authorization",
                                 tokenPfx := some "Bearer" },
        endpoints := [] } = true ∧
    authorize
      { name := "demo", baseUrl := "/api",
        authentication := some { enabled := true, token := some "secret-1",
                                 headerName := some "Authorization",
                                 tokenPfx := some "Bearer" },
        endpoints := [] }
      { path := "/a", method := .GET, responseBody := "1", statusCode := 200,
        requiresAuth := .rundef }
      (fun _ => none) = AuthResult.Allowed :=
  ⟨rfl,
   (undefined_requiresAuth_allows
      { name := "demo", baseUrl := "/api",
        authentication := some { enabled := true, token := some "secret-1",
                                 headerName := some "Authorization",
                                 tokenPfx := some "Bearer" },
        endpoints := [] }
      { path := "/a", method := .GET, responseBody := "1", statusCode := 200,
        requiresAuth := .rundef }
      (fun _ => none) rfl).2⟩

/-- Claim C3 (amended): when the effective authentication requirement is
true, the request is allowed if and only if the extracted token is
non-empty and exactly string-equal to the stored
`project.authentication.token`; supplying the header
"{prefix} {token}" with the stored prefix and token therefore yields
Allowed provided the token is non-empty and neither the prefix nor the
token contains a space character (a token or prefix containing a space
makes extraction fail, so that header is denied). -/
theorem auth_token_match (p : Project) (e : Endpoint) (g : String → Option String)
    (h : effectiveAuth e p = true) :
    (authorize p e g = AuthResult.Allowed ↔
      ∃ t, extractTokenFromHeader ((g (headerNameEff p)).getD "") (tokenPfxEff p) = some t ∧
        t ≠ "" ∧ authTokenOf p = some t) ∧
    (∀ t, authTokenOf p = some t → t ≠ "" →
      ' ' ∉ (tokenPfxEff p).data → ' ' ∉ t.data →
      g (headerNameEff p) = some (tokenPfxEff p ++ " " ++ t) →
      authorize p e g = AuthResult.Allowed) := by
  have hbase : authorize p e g =
      match extractTokenFromHeader ((g (headerNameEff p)).getD "") (tokenPfxEff p) with
      | none => AuthResult.Denied (headerNameEff p) (tokenPfxEff p ++ " <token>")
      | some t =>
        if t = "" then AuthResult.Denied (headerNameEff p) (tokenPfxEff p ++ " <token>")
        else if authTokenOf p = some t then AuthResult.Allowed
        else AuthResult.Denied (headerNameEff p) (tokenPfxEff p ++ " <token>") := by
    unfold authorize
    rw [if_pos h]
  constructor
  · rw [hbase]
    cases hx : extractTokenFromHeader ((g (headerNameEff p)).getD "") (tokenPfxEff p) with
    | none =>
      constructor
      · intro hc; exact absurd hc (by simp)
      · rintro ⟨t, ht, -, -⟩
        exact absurd ht (by simp)
    | some t =>
      by_cases ht0 : t = ""
      · simp only [if_pos ht0]
        constructor
        · intro hc; exact absurd hc (by simp)
        · rintro ⟨t2, ht2, hne, -⟩
          have ht2e : t2 = t := by injection ht2 with hh; exact hh.symm
          exact absurd (ht2e.trans ht0) hne
      · simp only [if_neg ht0]
        by_cases htok : authTokenOf p = some t
        · simp only [if_pos htok]
          constructor
          · intro _; exact ⟨t, rfl, ht0, htok⟩
          · intro _; trivial
        · simp only [if_neg htok]
          constructor
          · intro hc; exact absurd hc (by simp)
          · rintro ⟨t2, ht2, -, htok2⟩
            have ht2e : t2 = t := by injection ht2 with hh; exact hh.symm
            exact absurd (ht2e ▸ htok2) htok
  · intro t htok hne hnp hnt hg
    have hext : extractTokenFromHeader ((g (headerNameEff p)).getD "") (tokenPfxEff p) = some t := by
      rw [hg]
      exact (extractToken_eq_some _ _ _).mpr ⟨rfl, hnp, hnt⟩
    rw [hbase, hext]
    simp only [if_neg hne, if_pos htok]

/-- Counterexample to claim C3 as stated: a project whose stored token is
"a b" (it contains a space), with enabled authentication and the default
prefix "Bearer".  The request supplies exactly the header
"{prefix} {token}" = "Bearer a b", yet the gate denies it: splitting on
spaces yields three parts, so extraction returns nothing. -/
theorem auth_token_match_counterexample :
    effectiveAuth
      { path := "/a", method := .GET, responseBody := "1", statusCode := 200,
        requiresAuth := .rtrue }
      { name := "demo", baseUrl := "/api",
        authentication := some { enabled := true, token := some "a b",
                                 headerName := some "Authorization",
                                 tokenPfx := some "Bearer" },
        endpoints := [] } = true ∧
    authTokenOf
      { name := "demo", baseUrl := "/api",
        authentication := some { enabled := true, token := some "a b",
                                 headerName := some "Authorization",
                                 tokenPfx := some "Bearer" },
        endpoints := [] } = some "a b" ∧
    tokenPfxEff
      { name := "demo", baseUrl := "/api",
        authentication := some { enabled := true, token := some "a b",
                                 headerName := some "Authorization",
                                 tokenPfx := some "Bearer" },
        endpoints := [] } = "Bearer" ∧
    (fun h => if h = "Authorization" then some "Bearer a b" else none)
      (headerNameEff
        { name := "demo", baseUrl := "/api",
          authentication := some { enabled := true, token := some "a b",
                                   headerName := some "Authorization",
                                   tokenPfx := some "Bearer" },
          endpoints := [] }) = some ("Bearer" ++ " " ++ "a b") ∧
    authorize
      { name := "demo", baseUrl := "/api",
        authentication := some { enabled := true, token := some "a b",
                                 headerName := some "Authorization",
                                 tokenPfx := some "Bearer" },
        endpoints := [] }
      { path := "/a", method := .GET, responseBody := "1", statusCode := 200,
        requiresAuth := .rtrue }
      (fun h => if h = "Authorization" then some "Bearer a b" else none)
      ≠ AuthResult.Allowed := by
  refine ⟨rfl, rfl, rfl, by decide, by decide⟩

/-- Concrete instance of claim C3 (amended): the well-formed token
"abcd-1234" with prefix "Bearer" in the header "Bearer abcd-1234" is
allowed. -/
theorem auth_token_match_witness :
    authorize
      { name := "demo", baseUrl := "/api",
        authentication := some { enabled := true, token := some "abcd-1234",
                                 headerName := some "Authorization",
                                 tokenPfx := some "Bearer" },
        endpoints := [] }
      { path := "/a", method := .GET, responseBody := "1", statusCode := 200,
        requiresAuth := .rtrue }
      (fun h => if h = "Authorization" then some "Bearer abcd-1234" else none)
      = AuthResult.Allowed :=
  (auth_token_match
    { name := "demo", baseUrl := "/api",
      authentication := some { enabled := true, token := some "abcd-1234",
                               headerName := some "Authorization",
                               tokenPfx := some "Bearer" },
      endpoints := [] }
    { path := "/a", method := .GET, responseBody := "1", statusCode := 200,
      requiresAuth := .rtrue }
    (fun h => if h = "Authorization" then some "Bearer abcd-1234" else none)
    rfl).2 "abcd-1234" rfl (by decide) (by decide) (by decide) (by decide)

/-- Splits a character list into its maximal whitespace-free runs,
dropping the whitespace itself. -/
def wsTokensAux : List Char → List Char → List (List Char)
  | [], acc => if acc = [] then [] else [acc.reverse]
  | c :: cs, acc =>
    if c.isWhitespace then
      if acc = [] then wsTokensAux cs [] else acc.reverse :: wsTokensAux cs []
    else wsTokensAux cs (c :: acc)

/-- Tokenisation of a string into whitespace-separated tokens, the reading
of "exactly two whitespace-separated tokens" in the specification text
(written from the spec's words, for comparison with
`extractTokenFromHeader`). -/
def wsTokens (s : String) : List String :=
  (wsTokensAux s.data []).map String.mk

/-- Extraction as the specification describes it: exactly two
whitespace-separated tokens "{prefix} {value}", returning the value when
the first token equals the prefix (written from the spec's words, for
comparison with `extractTokenFromHeader`). -/
def extractTokenSpec (authHeader pfx : String) : Option String :=
  match wsTokens authHeader with
  | [a, b] => if a = pfx then some b else none
  | _ => none

/-- Counterexample to claim C4 as stated: the header "Bearer  x" (two
consecutive spaces) consists of exactly the two whitespace-separated
tokens "Bearer" and "x" with the first equal to the prefix, so the claim
makes extraction return "x"; the code's single-space split produces three
parts (one empty) and the extracted token is absent. -/
theorem extract_token_rule_counterexample :
    wsTokens "Bearer  x" = ["Bearer", "x"] ∧
    extractTokenSpec "Bearer  x" "Bearer" = some "x" ∧
    extractTokenFromHeader "Bearer  x" "Bearer" = none := by
  refine ⟨by decide, by decide, by decide⟩

/-- Claim C4 (amended): extraction parses the header as exactly two parts
split on the single space character — not general whitespace: consecutive
spaces produce empty parts and a tab does not separate — and returns the
second part exactly when the header is literally "{prefix} {value}" with
one space and no space inside either part; in every other case (absent or
empty header, not exactly two space-split parts, or first part different
from the configured prefix) the extracted token is absent. -/
theorem extract_token_rule (authHeader pfx v : String) :
    (extractTokenFromHeader authHeader pfx = some v ↔
      authHeader = pfx ++ " " ++ v ∧ ' ' ∉ pfx.data ∧ ' ' ∉ v.data) ∧
    extractTokenFromHeader "" pfx = none :=
  ⟨extractToken_eq_some authHeader pfx v, rfl⟩

/-- Concrete instance of claim C4 (amended): the header "Bearer tok1"
extracts to "tok1", and the empty header extracts to nothing. -/
theorem extract_token_rule_witness :
    extractTokenFromHeader "Bearer tok1" "Bearer" = some "tok1" ∧
    extractTokenFromHeader "" "Bearer" = none :=
  ⟨((extract_token_rule "Bearer tok1" "Bearer" "tok1").1).mpr
      ⟨by decide, by decide, by decide⟩,
   (extract_token_rule "Bearer tok1" "Bearer" "tok1").2⟩

/-- Claim C5: on an allowed request, the response status is the
endpoint's configured statusCode; a responseBody the JSON parser accepts
is emitted as a JSON body with Content-Type application/json, and one the
parser rejects is emitted verbatim as text with Content-Type text/plain —
the parse failure is recovered locally and never surfaced as an error
response. -/
theorem response_emission_rule (parse : String → Option JsonVal) (ps : List Project)
    (fullPath : String) (m : Method) (g : String → Option String)
    (p : Project) (e : Endpoint)
    (hres : resolve fullPath m ps = some (p, e))
    (hauth : authorize p e g = AuthResult.Allowed) :
    (handleRequest parse ps fullPath m g).status = e.statusCode ∧
    (∀ j, parse e.responseBody = some j →
      (handleRequest parse ps fullPath m g).body = ResponseBody.json j ∧
      ("Content-Type", "application/json") ∈ (handleRequest parse ps fullPath m g).headers) ∧
    (parse e.responseBody = none →
      (handleRequest parse ps fullPath m g).body = ResponseBody.text e.responseBody ∧
      ("Content-Type", "text/plain") ∈ (handleRequest parse ps fullPath m g).headers) := by
  have hh : handleRequest parse ps fullPath m g = emitBody parse e := by
    rw [handleRequest_resolve_some parse ps fullPath m g p e hres, hauth]
  rw [hh]
  unfold emitBody
  cases hp : parse e.responseBody with
  | some j =>
    refine ⟨rfl, ?_, ?_⟩
    · intro j2 hj2
      have hje : j = j2 := by injection hj2
      subst hje
      exact ⟨rfl, by simp [addCorsHeaders, jsonResponse]⟩
    · intro hn; exact absurd hn (by simp)
  | none =>
    refine ⟨rfl, ?_, ?_⟩
    · intro j2 hj2
      exact absurd hj2 (by simp)
    · intro _
      exact ⟨rfl, by simp [addCorsHeaders]⟩

/-- Claim C6: when no endpoint of any registered project matches the
request path and method, the dispatcher emits HTTP 404 with a JSON body
carrying the error code "Endpoint not found", the searched path and the
searched method. -/
theorem not_found_rule (parse : String → Option JsonVal) (ps : List Project)
    (fullPath : String) (m : Method) (g : String → Option String)
    (h : ∀ p ∈ ps, ∀ e ∈ p.endpoints,
      ¬(fullPath = expectedPath p.name p.baseUrl e.path ∧ e.method = m)) :
    handleRequest parse ps fullPath m g = notFoundResponse fullPath m ∧
    (notFoundResponse fullPath m).status = 404 ∧
    (notFoundResponse fullPath m).body = ResponseBody.json (JsonVal.jobj
      [("error", JsonVal.jstr "Endpoint not found"),
       ("path", JsonVal.jstr fullPath),
       ("method", JsonVal.jstr m.name)]) :=
  ⟨handleRequest_resolve_none parse ps fullPath m g
      (resolve_eq_none_of_no_match fullPath m ps h), rfl, rfl⟩

/-- Claim C7: every response of the dispatcher — success, 401 denial,
404 no-match, 500 internal fault and the OPTIONS preflight alike —
carries the four fixed permissive CORS headers: any origin, the five
methods plus OPTIONS, the common request headers, and a 86400-second
preflight cache. -/
theorem cors_on_every_response :
    (∀ parse ps fullPath m g, corsHeaders ⊆ (handleRequest parse ps fullPath m g).headers) ∧
    corsHeaders ⊆ optionsResponse.headers ∧
    corsHeaders ⊆ internalErrorResponse.headers ∧
    corsHeaders ⊆ invalidPathResponse.headers ∧
    optionsResponse.status = 200 ∧ optionsResponse.body = ResponseBody.empty ∧
    ("Access-Control-Allow-Origin", "*") ∈ corsHeaders ∧
    ("Access-Control-Allow-Methods", "GET, POST, PUT, PATCH, DELETE, OPTIONS") ∈ corsHeaders ∧
    ("Access-Control-Allow-Headers",
      "Content-Type, Authorization, X-Requested-With, Accept, Origin") ∈ corsHeaders ∧
    ("Access-Control-Max-Age", "86400") ∈ corsHeaders := by
  refine ⟨?_, cors_sub_addCors _, cors_sub_addCors _, cors_sub_addCors _,
         rfl, rfl, by decide, by decide, by decide, by decide⟩
  intro parse ps fullPath m g
  obtain ⟨r, hr⟩ : ∃ r, handleRequest parse ps fullPath m g = addCorsHeaders r := by
    cases hres : resolve fullPath m ps with
    | none =>
      rw [handleRequest_resolve_none parse ps fullPath m g hres]
      exact ⟨_, rfl⟩
    | some pe =>
      obtain ⟨p, e⟩ := pe
      rw [handleRequest_resolve_some parse ps fullPath m g p e hres]
      cases authorize p e g with
      | Denied hn fmt => exact ⟨_, rfl⟩
      | Allowed =>
        unfold emitBody
        cases parse e.responseBody with
        | some j => exact ⟨_, rfl⟩
        | none => exact ⟨_, rfl⟩
  rw [hr]
  exact cors_sub_addCors _

/-- Concrete instance of claim C5: a registry with one matching,
auth-free endpoint of status 201 whose body the parser accepts; the
response carries status 201 and the parsed JSON body. -/
theorem response_emission_rule_witness :
    (handleRequest (fun s => if s = "ok" then some (JsonVal.jstr "parsed") else none)
      [{ name := "demo5", baseUrl := "/api", authentication := none,
         endpoints := [{ path := "/x", method := .GET, responseBody := "ok",
                         statusCode := 201, requiresAuth := .rnull }] }]
      "/demo5/api/x" Method.GET (fun _ => none)).status = 201 ∧
    (handleRequest (fun s => if s = "ok" then some (JsonVal.jstr "parsed") else none)
      [{ name := "demo5", baseUrl := "/api", authentication := none,
         endpoints := [{ path := "/x", method := .GET, responseBody := "ok",
                         statusCode := 201, requiresAuth := .rnull }] }]
      "/demo5/api/x" Method.GET (fun _ => none)).body
      = ResponseBody.json (JsonVal.jstr "parsed") := by
  have h := response_emission_rule
      (fun s => if s = "ok" then some (JsonVal.jstr "parsed") else none)
      [{ name := "demo5", baseUrl := "/api", authentication := none,
         endpoints := [{ path := "/x", method := .GET, responseBody := "ok",
                         statusCode := 201, requiresAuth := .rnull }] }]
      "/demo5/api/x" Method.GET (fun _ => none)
      { name := "demo5", baseUrl := "/api", authentication := none,
        endpoints := [{ path := "/x", method := .GET, responseBody := "ok",
                        statusCode := 201, requiresAuth := .rnull }] }
      { path := "/x", method := .GET, responseBody := "ok",
        statusCode := 201, requiresAuth := .rnull }
      (by decide) rfl
  exact ⟨h.1, (h.2.1 (JsonVal.jstr "parsed") rfl).1⟩

/-- Concrete instance of claim C6: the empty registry with request path
"/unknown" and method GET produces the 404 body of the claim. -/
theorem not_found_rule_witness :
    handleRequest (fun _ => none) [] "/unknown" Method.GET (fun _ => none) =
      notFoundResponse "/unknown" Method.GET ∧
    (notFoundResponse "/unknown" Method.GET).status = 404 ∧
    (notFoundResponse "/unknown" Method.GET).body = ResponseBody.json (JsonVal.jobj
      [("error", JsonVal.jstr "Endpoint not found"),
       ("path", JsonVal.jstr "/unknown"),
       ("method", JsonVal.jstr "GET")]) := by
  have h := not_found_rule (fun _ => none) [] "/unknown" Method.GET (fun _ => none)
      (by intro p hp; exact absurd hp (List.not_mem_nil p))
  exact ⟨h.1, h.2.1, h.2.2⟩

/-- Concrete instance of claim C7: the 404 answer of the empty registry
carries the allow-any-origin header. -/
theorem cors_on_every_response_witness :
    ("Access-Control-Allow-Origin", "*") ∈
      (handleRequest (fun _ => none) [] "/x" Method.GET (fun _ => none)).headers :=
  cors_on_every_response.1 (fun _ => none) [] "/x" Method.GET (fun _ => none) (by decide)

theorem cleanSlash_of_slash (s : String) (h : startsWithSlash s) : cleanSlash s = s := by
  simp [cleanSlash, h]

theorem cleanSlash_length (s : String) (h : ¬ startsWithSlash s) :
    (cleanSlash s).length = s.length + 1 := by
  unfold cleanSlash
  rw [if_neg h]
  rw [String.length_append]
  have h1 : ("/" : String).length = 1 := rfl
  omega

/-- Claim C10: when `baseUrl` and the endpoint path both begin with "/",
the path portion of the URL built by `generateEndpointUrl` after its
"/api/fake" mount prefix is exactly the `expectedPath` accepted by the
dispatcher's `matchEndpoint`; when either lacks the leading "/",
`generateEndpointUrl` inserts one while `matchEndpoint` concatenates the
stored strings verbatim, and the two paths differ. -/
theorem url_generation_refines_matcher (origin projectName baseUrl endpointPath : String) :
    (startsWithSlash baseUrl → startsWithSlash endpointPath →
      genPathPortion projectName baseUrl endpointPath =
        expectedPath projectName baseUrl endpointPath ∧
      generateEndpointUrl origin projectName baseUrl endpointPath =
        origin ++ "/api/fake" ++ expectedPath projectName baseUrl endpointPath ∧
      matchEndpoint (genPathPortion projectName baseUrl endpointPath)
        projectName baseUrl endpointPath = true) ∧
    ((¬ startsWithSlash baseUrl ∨ ¬ startsWithSlash endpointPath) →
      genPathPortion projectName baseUrl endpointPath ≠
        expectedPath projectName baseUrl endpointPath) := by
  constructor
  · intro hb hp
    have h1 : genPathPortion projectName baseUrl endpointPath =
        expectedPath projectName baseUrl endpointPath := by
      unfold genPathPortion expectedPath
      rw [cleanSlash_of_slash _ hb, cleanSlash_of_slash _ hp]
    refine ⟨h1, ?_, ?_⟩
    · unfold generateEndpointUrl expectedPath
      rw [cleanSlash_of_slash _ hb, cleanSlash_of_slash _ hp]
      apply String.ext
      have hsp : ("/api/fake/" : String).data = ("/api/fake" : String).data ++ ("/" : String).data := by
        decide
      simp [String.data_append, hsp]
    · rw [h1]
      simp [matchEndpoint]
  · intro hor heq
    have hb1 : (cleanSlash baseUrl).length ≥ baseUrl.length := by
      by_cases hb : startsWithSlash baseUrl
      · rw [cleanSlash_of_slash _ hb]
      · rw [cleanSlash_length _ hb]; omega
    have hp1 : (cleanSlash endpointPath).length ≥ endpointPath.length := by
      by_cases hp : startsWithSlash endpointPath
      · rw [cleanSlash_of_slash _ hp]
      · rw [cleanSlash_length _ hp]; omega
    have hstrict : (cleanSlash baseUrl).length + (cleanSlash endpointPath).length >
        baseUrl.length + endpointPath.length := by
      rcases hor with h | h
      · have := cleanSlash_length _ h; omega
      · have := cleanSlash_length _ h; omega
    have hlen := congrArg String.length heq
    simp only [genPathPortion, expectedPath, String.length_append] at hlen
    omega

/-- Concrete instance of claim C10: with leading slashes the generated
path equals the matcher's expected path and is accepted; with "api/v1"
(no leading slash) the two differ. -/
theorem url_generation_refines_matcher_witness :
    genPathPortion "My Blog API" "/api/v1" "/users" =
      expectedPath "My Blog API" "/api/v1" "/users" ∧
    matchEndpoint (genPathPortion "My Blog API" "/api/v1" "/users")
      "My Blog API" "/api/v1" "/users" = true ∧
    genPathPortion "My Blog API" "api/v1" "/users" ≠
      expectedPath "My Blog API" "api/v1" "/users" := by
  have h1 := (url_generation_refines_matcher "http://localhost:3000"
      "My Blog API" "/api/v1" "/users").1 (by decide) (by decide)
  have h2 := (url_generation_refines_matcher "http://localhost:3000"
      "My Blog API" "api/v1" "/users").2 (Or.inl (by decide))
  exact ⟨h1.1, h1.2.2, h2⟩

end FakeAPI
